import Mathlib

/-!
Shallow embedding of the Learning Progress & Memory subsystem of the
Friends-bot repository (files `progress_tracker.py`, `data_manager.py`,
`main.py`), together with proofs settling the frozen claims about it.

Modelling conventions:
* Python integers are `Int` (no overflow in Python).
* Timestamps are abstract instants `Int`; calendar dates are abstract day
  indices `Int` (subtracting two day indices is the Python
  `(date1 - date2).days`).  `last_activity` stores the day index of the
  stored ISO timestamp, `none` when the field is absent or unparsable
  (the code treats both identically via `try/except`).
* Python dicts keyed by `str(user_id)` become functions `Int → _`
  (`str` is injective on integers).
* Python `s in t` on strings is contiguous-substring containment,
  embedded executably below.
-/

/-- Substring occurrence on character lists: `containsSub hay needle` is
`true` iff `needle` occurs contiguously inside `hay`. -/
def containsSub (hay needle : List Char) : Bool :=
  match hay with
  | [] => needle.isEmpty
  | _ :: t => needle.isPrefixOf hay || containsSub t needle

/-- Python `pat in s` for strings. -/
def strContains (s pat : String) : Bool :=
  containsSub s.data pat.data

/-- Python `s.lower()`: lowercase character by character. -/
def lowerStr (s : String) : String :=
  ⟨s.data.map Char.toLower⟩

/-- The per-user progress record built by
`ProgressTracker._initialize_user_progress` and mutated by the tracker.
The `skill_levels` dict becomes three explicit fields. -/
structure ProgressRecord where
  user_id : Int
  overall_score : Int
  completed_modules : List String
  current_modules : List String
  quizzes_completed : Int
  correct_answers : Int
  total_questions : Int
  learning_streak : Int
  last_activity : Option Int
  days_active : Int
  achievements : List String
  recent_topics : List String
  skill_crypto : String
  skill_stocks : String
  skill_trading : String
  learning_goals : List String
  created_at : Int
  updated_at : Int
  deriving DecidableEq, Repr

/-- `ProgressTracker._initialize_user_progress`: the zero-value record. -/
def initProgress (now uid : Int) : ProgressRecord where
  user_id := uid
  overall_score := 0
  completed_modules := []
  current_modules := []
  quizzes_completed := 0
  correct_answers := 0
  total_questions := 0
  learning_streak := 0
  last_activity := none
  days_active := 0
  achievements := []
  recent_topics := []
  skill_crypto := "beginner"
  skill_stocks := "beginner"
  skill_trading := "beginner"
  learning_goals := []
  created_at := now
  updated_at := now

/-- The `action == 'started'` branch of `update_progress`. -/
def applyStarted (topic : String) (r : ProgressRecord) : ProgressRecord :=
  if topic ∈ r.current_modules then r
  else { r with current_modules := r.current_modules ++ [topic] }

/-- The `action == 'completed'` branch of `update_progress`. -/
def applyCompleted (topic : String) (r : ProgressRecord) : ProgressRecord :=
  let r1 :=
    if topic ∈ r.completed_modules then r
    else { r with completed_modules := r.completed_modules ++ [topic] }
  let r2 :=
    if topic ∈ r1.current_modules then
      { r1 with current_modules := r1.current_modules.erase topic }
    else r1
  { r2 with overall_score := r2.overall_score + 10 }

/-- The `action == 'quiz_completed'` branch of `update_progress`. -/
def applyQuizCompleted (score : Int) (r : ProgressRecord) : ProgressRecord :=
  let r1 := { r with quizzes_completed := r.quizzes_completed + 1,
                     total_questions := r.total_questions + 1 }
  if 0 < score then
    { r1 with correct_answers := r1.correct_answers + score,
              overall_score := r1.overall_score + score * 5 }
  else r1

/-- The `if action == ... elif ...` dispatch of `update_progress`;
an unrecognised action falls through with no mutation. -/
def applyAction (topic action : String) (score : Int) (r : ProgressRecord) :
    ProgressRecord :=
  if action = "started" then applyStarted topic r
  else if action = "completed" then applyCompleted topic r
  else if action = "quiz_completed" then applyQuizCompleted score r
  else r

/-- The recent-topics maintenance of `update_progress`: append `topic` if
absent, then keep only the last 10. -/
def newRecentTopics (topic : String) (l : List String) : List String :=
  let l1 := if topic ∈ l then l else l ++ [topic]
  if 10 < l1.length then l1.drop (l1.length - 10) else l1

def updateRecentTopics (topic : String) (r : ProgressRecord) : ProgressRecord :=
  { r with recent_topics := newRecentTopics topic r.recent_topics }

/-- `progress['overall_score'] = min(progress['overall_score'], 100)`. -/
def clampScore (r : ProgressRecord) : ProgressRecord :=
  { r with overall_score := min r.overall_score 100 }

/-- The achievements list computed by `ProgressTracker._check_achievements`. -/
def newAchievements (r : ProgressRecord) : List String :=
  let a0 := r.achievements
  let a1 := if 1 ≤ r.completed_modules.length ∧ "First Steps" ∉ a0 then
              a0 ++ ["First Steps"] else a0
  let a2 := if 3 ≤ r.completed_modules.length ∧ "Knowledge Seeker" ∉ a1 then
              a1 ++ ["Knowledge Seeker"] else a1
  let a3 := if 5 ≤ r.quizzes_completed ∧ "Quiz Master" ∉ a2 then
              a2 ++ ["Quiz Master"] else a2
  let a4 := if 7 ≤ r.learning_streak ∧ "Consistent Learner" ∉ a3 then
              a3 ++ ["Consistent Learner"] else a3
  let a5 := if 80 ≤ r.overall_score ∧ "High Achiever" ∉ a4 then
              a4 ++ ["High Achiever"] else a4
  if 0 < r.total_questions ∧ r.correct_answers = r.total_questions ∧
      5 ≤ r.total_questions ∧ "Perfect Score" ∉ a5 then
    a5 ++ ["Perfect Score"]
  else a5

/-- `ProgressTracker._check_achievements` writes the recomputed list back. -/
def checkAchievements (r : ProgressRecord) : ProgressRecord :=
  { r with achievements := newAchievements r }

/-- `[m for m in completed_modules if 'crypto' in m.lower() or 'blockchain' in m.lower()]`. -/
def cryptoModules (r : ProgressRecord) : List String :=
  r.completed_modules.filter fun m =>
    strContains (lowerStr m) "crypto" || strContains (lowerStr m) "blockchain"

/-- `[m for m in completed_modules if 'stock' in m.lower() or 'trading' in m.lower()]`. -/
def stocksModules (r : ProgressRecord) : List String :=
  r.completed_modules.filter fun m =>
    strContains (lowerStr m) "stock" || strContains (lowerStr m) "trading"

/-- `[m for m in completed_modules if any(term in m.lower() for term in ['trading', 'analysis', 'risk'])]`. -/
def tradingModules (r : ProgressRecord) : List String :=
  r.completed_modules.filter fun m =>
    strContains (lowerStr m) "trading" || strContains (lowerStr m) "analysis" ||
      strContains (lowerStr m) "risk"

/-- The two sequential threshold checks for the crypto domain in
`_update_skill_levels` (the second assignment overrides the first). -/
def newSkillCrypto (r : ProgressRecord) : String :=
  let s := if 3 ≤ (cryptoModules r).length ∨ 60 ≤ r.overall_score then
             "intermediate" else r.skill_crypto
  if 5 ≤ (cryptoModules r).length ∨ 80 ≤ r.overall_score then "advanced" else s

def newSkillStocks (r : ProgressRecord) : String :=
  let s := if 3 ≤ (stocksModules r).length ∨ 60 ≤ r.overall_score then
             "intermediate" else r.skill_stocks
  if 5 ≤ (stocksModules r).length ∨ 80 ≤ r.overall_score then "advanced" else s

def newSkillTrading (r : ProgressRecord) : String :=
  let s := if 2 ≤ (tradingModules r).length ∨ 50 ≤ r.overall_score then
             "intermediate" else r.skill_trading
  if 4 ≤ (tradingModules r).length ∨ 75 ≤ r.overall_score then "advanced" else s

/-- `ProgressTracker._update_skill_levels`. -/
def updateSkillLevels (r : ProgressRecord) : ProgressRecord :=
  { r with skill_crypto := newSkillCrypto r,
           skill_stocks := newSkillStocks r,
           skill_trading := newSkillTrading r }

/-- `ProgressTracker.update_progress` as a pure transform of the record
(the surrounding load/save is modelled on `DataStore` below): set
`updated_at`, dispatch on the action, maintain `recent_topics`, clamp the
score at 100, recompute achievements, recompute skill levels. -/
def updateProgress (now : Int) (topic action : String) (score : Int)
    (r : ProgressRecord) : ProgressRecord :=
  updateSkillLevels (checkAchievements (clampScore (updateRecentTopics topic
    (applyAction topic action score { r with updated_at := now }))))

/-- `ProgressTracker.update_user_activity` as a pure transform; `today` is
the current calendar day index, `now` the current instant. -/
def updateUserActivity (today now : Int) (r : ProgressRecord) : ProgressRecord :=
  let r1 :=
    if r.last_activity ≠ some today then
      let r2 := { r with days_active := r.days_active + 1 }
      match r.last_activity with
      | some prior =>
          if today - prior = 1 then
            { r2 with learning_streak := r2.learning_streak + 1 }
          else if 1 < today - prior then { r2 with learning_streak := 1 }
          else { r2 with learning_streak := 1 }
      | none => { r2 with learning_streak := 1 }
    else r
  { r1 with last_activity := some today, updated_at := now }

/-- One mutation event on a progress record: either an `update_progress`
call or an `update_user_activity` call. -/
inductive Event where
  | progress (now : Int) (topic action : String) (score : Int)
  | activity (today now : Int)
  deriving DecidableEq, Repr

def applyEvent (r : ProgressRecord) : Event → ProgressRecord
  | .progress now topic action score => updateProgress now topic action score r
  | .activity today now => updateUserActivity today now r

/-- Run a finite event sequence (oldest first) against a record. -/
def runEvents (evs : List Event) (r : ProgressRecord) : ProgressRecord :=
  evs.foldl applyEvent r

/-- One stored conversation turn (`conversation_data` in `main.py`).
`timestamp` is `none` when the field is missing or unparsable;
`ai_response` is `none` until the generator reply is attached. -/
structure Turn where
  timestamp : Option Int
  user_message : String
  user_name : String
  user_id : Int
  chat_id : Int
  chat_type : String
  ai_response : Option String
  deriving DecidableEq, Repr

/-- The `if 'timestamp' not in conversation_data` defaulting in
`store_conversation` / `store_group_conversation`. -/
def ensureTimestamp (now : Int) (t : Turn) : Turn :=
  match t.timestamp with
  | none => { t with timestamp := some now }
  | some _ => t

/-- `DataManager.store_conversation` on one per-user ledger: append, then
keep only the last 50. -/
def storeConversation (now : Int) (ledger : List Turn) (t : Turn) : List Turn :=
  let l := ledger ++ [ensureTimestamp now t]
  if 50 < l.length then l.drop (l.length - 50) else l

/-- `DataManager.store_group_conversation` on one per-group ledger:
append, then keep only the last 100. -/
def storeGroupConversation (now : Int) (ledger : List Turn) (t : Turn) :
    List Turn :=
  let l := ledger ++ [ensureTimestamp now t]
  if 100 < l.length then l.drop (l.length - 100) else l

/-- The context selection in `FriendsBot.handle_message` (`main.py`):
for `group`/`supergroup` chats, the full group ledger followed by
`user_memories[-5:]`; otherwise the per-user ledger verbatim. -/
def buildContext (chat_type : String) (groupMems userMems : List Turn) :
    List Turn :=
  if chat_type = "group" ∨ chat_type = "supergroup" then
    groupMems ++ userMems.drop (userMems.length - 5)
  else
    userMems

/-- The retention test of `DataManager.cleanup_old_data`: a turn is kept
when its timestamp parses and is strictly newer than the cutoff, and
always kept when the timestamp is missing or unparsable (the bare
`except` branch). -/
def keepConversation (cutoff : Int) (c : Turn) : Bool :=
  match c.timestamp with
  | some ts => decide (cutoff < ts)
  | none => true

/-- One user's ledger after `cleanup_old_data`. -/
def cleanupLedger (cutoff : Int) (conversations : List Turn) : List Turn :=
  conversations.filter (keepConversation cutoff)

/-- A user-directory record (`user_manager.py`); its exact content is
irrelevant to the claims, which only require that resets never touch it. -/
structure Identity where
  user_id : Int
  username : Option String
  first_name : String
  display_name : String
  role : String
  is_known : Bool
  deriving DecidableEq, Repr

/-- The four JSON stores managed by `DataManager`, keyed by user/chat id. -/
structure DataStore where
  users : Int → Option Identity
  memories : Int → List Turn
  groupMemories : Int → List Turn
  progress : Int → Option ProgressRecord

/-- `DataManager.save_user_progress`. -/
def saveUserProgress (uid : Int) (p : ProgressRecord) (s : DataStore) :
    DataStore :=
  { s with progress := fun k => if k = uid then some p else s.progress k }

/-- `ProgressTracker.get_user_progress`: return the stored record, or
create, persist and return the zero-value record if absent. -/
def getUserProgress (now uid : Int) (s : DataStore) :
    ProgressRecord × DataStore :=
  match s.progress uid with
  | some p => (p, s)
  | none =>
      let p := initProgress now uid
      (p, saveUserProgress uid p s)

/-- `ProgressTracker.update_progress` including its load and save. -/
def updateProgressOp (now uid : Int) (topic action : String) (score : Int)
    (s : DataStore) : DataStore :=
  let pr := getUserProgress now uid s
  saveUserProgress uid (updateProgress now topic action score pr.1) pr.2

/-- `ProgressTracker.reset_user_progress`: overwrite the stored record
with the zero-value record. -/
def resetUserProgress (now uid : Int) (s : DataStore) : DataStore :=
  saveUserProgress uid (initProgress now uid) s

/-- `DataManager.cleanup_old_data`: rebuild every per-user conversation
ledger keeping only fresh-or-unparsable turns (group ledgers, users and
progress are untouched by the source function). -/
def cleanupOldData (days_to_keep now : Int) (s : DataStore) : DataStore :=
  let cutoff := now - days_to_keep * 24 * 60 * 60
  { s with memories := fun k => cleanupLedger cutoff (s.memories k) }

/-! ## Helper lemmas: branch characterisations and projections -/

theorem applyStarted_eq (t : String) (r : ProgressRecord) :
    applyStarted t r =
      { r with current_modules :=
          if t ∈ r.current_modules then r.current_modules
          else r.current_modules ++ [t] } := by
  unfold applyStarted
  split <;> simp_all

theorem applyCompleted_eq (t : String) (r : ProgressRecord) :
    applyCompleted t r =
      { r with
          completed_modules :=
            if t ∈ r.completed_modules then r.completed_modules
            else r.completed_modules ++ [t],
          current_modules :=
            if t ∈ r.current_modules then r.current_modules.erase t
            else r.current_modules,
          overall_score := r.overall_score + 10 } := by
  unfold applyCompleted
  split <;> split <;> simp_all

theorem applyQuizCompleted_eq (s : Int) (r : ProgressRecord) :
    applyQuizCompleted s r =
      if 0 < s then
        { r with quizzes_completed := r.quizzes_completed + 1,
                 total_questions := r.total_questions + 1,
                 correct_answers := r.correct_answers + s,
                 overall_score := r.overall_score + s * 5 }
      else
        { r with quizzes_completed := r.quizzes_completed + 1,
                 total_questions := r.total_questions + 1 } := by
  unfold applyQuizCompleted
  split <;> rfl

theorem applyAction_cases (t a : String) (s : Int) (r : ProgressRecord) :
    applyAction t a s r = applyStarted t r ∨
    applyAction t a s r = applyCompleted t r ∨
    applyAction t a s r = applyQuizCompleted s r ∨
    applyAction t a s r = r := by
  unfold applyAction
  repeat' split
  all_goals simp

theorem applyAction_eq_of_unknown (t a : String) (s : Int) (r : ProgressRecord)
    (h1 : a ≠ "started") (h2 : a ≠ "completed") (h3 : a ≠ "quiz_completed") :
    applyAction t a s r = r := by
  simp [applyAction, h1, h2, h3]

theorem updateProgress_decompose (now : Int) (t a : String) (s : Int)
    (r : ProgressRecord) :
    updateProgress now t a s r =
      updateSkillLevels (checkAchievements (clampScore (updateRecentTopics t
        (applyAction t a s { r with updated_at := now })))) := rfl

theorem updateProgress_score (now : Int) (t a : String) (s : Int)
    (r : ProgressRecord) :
    (updateProgress now t a s r).overall_score =
      min (applyAction t a s { r with updated_at := now }).overall_score 100 := rfl

theorem updateProgress_completed (now : Int) (t a : String) (s : Int)
    (r : ProgressRecord) :
    (updateProgress now t a s r).completed_modules =
      (applyAction t a s { r with updated_at := now }).completed_modules := rfl

theorem updateProgress_current (now : Int) (t a : String) (s : Int)
    (r : ProgressRecord) :
    (updateProgress now t a s r).current_modules =
      (applyAction t a s { r with updated_at := now }).current_modules := rfl

theorem updateProgress_correct (now : Int) (t a : String) (s : Int)
    (r : ProgressRecord) :
    (updateProgress now t a s r).correct_answers =
      (applyAction t a s { r with updated_at := now }).correct_answers := rfl

theorem updateProgress_total (now : Int) (t a : String) (s : Int)
    (r : ProgressRecord) :
    (updateProgress now t a s r).total_questions =
      (applyAction t a s { r with updated_at := now }).total_questions := rfl

theorem updateProgress_skill_crypto (now : Int) (t a : String) (s : Int)
    (r : ProgressRecord) :
    (updateProgress now t a s r).skill_crypto =
      newSkillCrypto (checkAchievements (clampScore (updateRecentTopics t
        (applyAction t a s { r with updated_at := now })))) := rfl

theorem updateProgress_skill_stocks (now : Int) (t a : String) (s : Int)
    (r : ProgressRecord) :
    (updateProgress now t a s r).skill_stocks =
      newSkillStocks (checkAchievements (clampScore (updateRecentTopics t
        (applyAction t a s { r with updated_at := now })))) := rfl

theorem updateProgress_skill_trading (now : Int) (t a : String) (s : Int)
    (r : ProgressRecord) :
    (updateProgress now t a s r).skill_trading =
      newSkillTrading (checkAchievements (clampScore (updateRecentTopics t
        (applyAction t a s { r with updated_at := now })))) := rfl

theorem applyAction_score_le (t a : String) (s : Int) (r : ProgressRecord) :
    r.overall_score ≤ (applyAction t a s r).overall_score := by
  rcases applyAction_cases t a s r with h | h | h | h <;> rw [h]
  · rw [applyStarted_eq]
  · rw [applyCompleted_eq]
    show r.overall_score ≤ r.overall_score + 10
    omega
  · rw [applyQuizCompleted_eq]
    split
    · rename_i hpos
      show r.overall_score ≤ r.overall_score + s * 5
      omega
    · exact le_refl _

theorem applyAction_completed_extends (t a : String) (s : Int)
    (r : ProgressRecord) :
    ∃ tail, (applyAction t a s r).completed_modules =
      r.completed_modules ++ tail := by
  rcases applyAction_cases t a s r with h | h | h | h <;> rw [h]
  · exact ⟨[], by rw [applyStarted_eq]; simp⟩
  · rw [applyCompleted_eq]
    by_cases hm : t ∈ r.completed_modules
    · exact ⟨[], by simp [hm]⟩
    · exact ⟨[t], by simp [hm]⟩
  · rw [applyQuizCompleted_eq]
    refine ⟨[], ?_⟩
    split <;> simp
  · exact ⟨[], by simp⟩

theorem applyAction_current_nodup (t a : String) (s : Int) (r : ProgressRecord)
    (h : r.current_modules.Nodup) :
    (applyAction t a s r).current_modules.Nodup := by
  rcases applyAction_cases t a s r with hc | hc | hc | hc <;> rw [hc]
  · rw [applyStarted_eq]
    simp only
    split
    · exact h
    · rename_i hnm
      rw [List.nodup_append_comm]
      simp only [List.singleton_append, List.nodup_cons]
      exact ⟨hnm, h⟩
  · rw [applyCompleted_eq]
    simp only
    split
    · exact h.erase t
    · exact h
  · rw [applyQuizCompleted_eq]; split <;> exact h
  · exact h

theorem applyAction_skills (t a : String) (s : Int) (r : ProgressRecord) :
    (applyAction t a s r).skill_crypto = r.skill_crypto ∧
    (applyAction t a s r).skill_stocks = r.skill_stocks ∧
    (applyAction t a s r).skill_trading = r.skill_trading := by
  rcases applyAction_cases t a s r with h | h | h | h <;> rw [h]
  · rw [applyStarted_eq]; exact ⟨rfl, rfl, rfl⟩
  · rw [applyCompleted_eq]; exact ⟨rfl, rfl, rfl⟩
  · rw [applyQuizCompleted_eq]; split <;> exact ⟨rfl, rfl, rfl⟩
  · exact ⟨rfl, rfl, rfl⟩

theorem applyAction_counters (t a : String) (s : Int) (r : ProgressRecord)
    (hle : r.correct_answers ≤ r.total_questions)
    (hs : a = "quiz_completed" → s ≤ 1) :
    (applyAction t a s r).correct_answers ≤
      (applyAction t a s r).total_questions := by
  by_cases h1 : a = "started"
  · rw [show applyAction t a s r = applyStarted t r by simp [applyAction, h1],
      applyStarted_eq]
    exact hle
  by_cases h2 : a = "completed"
  · rw [show applyAction t a s r = applyCompleted t r by
      simp [applyAction, h1, h2], applyCompleted_eq]
    exact hle
  by_cases h3 : a = "quiz_completed"
  · have hs1 : s ≤ 1 := hs h3
    rw [show applyAction t a s r = applyQuizCompleted s r by
      simp [applyAction, h1, h2, h3], applyQuizCompleted_eq]
    split
    · show r.correct_answers + s ≤ r.total_questions + 1
      omega
    · show r.correct_answers ≤ r.total_questions + 1
      omega
  · rw [applyAction_eq_of_unknown t a s r h1 h2 h3]
    exact hle

theorem updateUserActivity_untouched (today now : Int) (r : ProgressRecord) :
    (updateUserActivity today now r).overall_score = r.overall_score ∧
    (updateUserActivity today now r).completed_modules = r.completed_modules ∧
    (updateUserActivity today now r).current_modules = r.current_modules ∧
    (updateUserActivity today now r).correct_answers = r.correct_answers ∧
    (updateUserActivity today now r).total_questions = r.total_questions ∧
    (updateUserActivity today now r).skill_crypto = r.skill_crypto ∧
    (updateUserActivity today now r).skill_stocks = r.skill_stocks ∧
    (updateUserActivity today now r).skill_trading = r.skill_trading := by
  unfold updateUserActivity
  repeat' split
  all_goals exact ⟨rfl, rfl, rfl, rfl, rfl, rfl, rfl, rfl⟩

theorem cryptoModules_congr (r₁ r₂ : ProgressRecord)
    (h : r₁.completed_modules = r₂.completed_modules) :
    cryptoModules r₁ = cryptoModules r₂ := by
  simp [cryptoModules, h]

theorem stocksModules_congr (r₁ r₂ : ProgressRecord)
    (h : r₁.completed_modules = r₂.completed_modules) :
    stocksModules r₁ = stocksModules r₂ := by
  simp [stocksModules, h]

theorem tradingModules_congr (r₁ r₂ : ProgressRecord)
    (h : r₁.completed_modules = r₂.completed_modules) :
    tradingModules r₁ = tradingModules r₂ := by
  simp [tradingModules, h]

theorem cryptoModules_mono (r₁ r₂ : ProgressRecord) (tail : List String)
    (h : r₂.completed_modules = r₁.completed_modules ++ tail) :
    (cryptoModules r₁).length ≤ (cryptoModules r₂).length := by
  simp [cryptoModules, h, List.filter_append]

theorem stocksModules_mono (r₁ r₂ : ProgressRecord) (tail : List String)
    (h : r₂.completed_modules = r₁.completed_modules ++ tail) :
    (stocksModules r₁).length ≤ (stocksModules r₂).length := by
  simp [stocksModules, h, List.filter_append]

theorem tradingModules_mono (r₁ r₂ : ProgressRecord) (tail : List String)
    (h : r₂.completed_modules = r₁.completed_modules ++ tail) :
    (tradingModules r₁).length ≤ (tradingModules r₂).length := by
  simp [tradingModules, h, List.filter_append]

/-- The common two-threshold shape of the three domain updates in
`_update_skill_levels`. -/
def skillStep (iN aN : Nat) (iS aS : Int) (c : Nat) (sc : Int) (old : String) :
    String :=
  let s := if iN ≤ c ∨ iS ≤ sc then "intermediate" else old
  if aN ≤ c ∨ aS ≤ sc then "advanced" else s

theorem newSkillCrypto_eq (r : ProgressRecord) :
    newSkillCrypto r =
      skillStep 3 5 60 80 (cryptoModules r).length r.overall_score
        r.skill_crypto := rfl

theorem newSkillStocks_eq (r : ProgressRecord) :
    newSkillStocks r =
      skillStep 3 5 60 80 (stocksModules r).length r.overall_score
        r.skill_stocks := rfl

theorem newSkillTrading_eq (r : ProgressRecord) :
    newSkillTrading r =
      skillStep 2 4 50 75 (tradingModules r).length r.overall_score
        r.skill_trading := rfl

theorem skillStep_advanced (iN aN : Nat) (iS aS : Int) (c : Nat) (sc : Int)
    (old : String) (h : aN ≤ c ∨ aS ≤ sc) :
    skillStep iN aN iS aS c sc old = "advanced" := by
  simp [skillStep, h]

theorem skillStep_eq_advanced (iN aN : Nat) (iS aS : Int) (c : Nat) (sc : Int)
    (old : String) (h : skillStep iN aN iS aS c sc old = "advanced") :
    (aN ≤ c ∨ aS ≤ sc) ∨ old = "advanced" := by
  unfold skillStep at h
  by_cases hadv : aN ≤ c ∨ aS ≤ sc
  · exact Or.inl hadv
  · rw [if_neg hadv] at h
    by_cases hint : iN ≤ c ∨ iS ≤ sc
    · rw [if_pos hint] at h
      exact absurd h (by decide)
    · rw [if_neg hint] at h
      exact Or.inr h

/-- The master reachability invariant of a progress record: score bounds,
no duplicate current modules, and every advanced skill justified by its
own advanced threshold. -/
def RecordInv (r : ProgressRecord) : Prop :=
  0 ≤ r.overall_score ∧ r.overall_score ≤ 100 ∧
  r.current_modules.Nodup ∧
  (r.skill_crypto = "advanced" →
    5 ≤ (cryptoModules r).length ∨ 80 ≤ r.overall_score) ∧
  (r.skill_stocks = "advanced" →
    5 ≤ (stocksModules r).length ∨ 80 ≤ r.overall_score) ∧
  (r.skill_trading = "advanced" →
    4 ≤ (tradingModules r).length ∨ 75 ≤ r.overall_score)

theorem inv_init (now uid : Int) : RecordInv (initProgress now uid) := by
  refine ⟨le_refl 0, ?_, List.nodup_nil, ?_, ?_, ?_⟩
  · show (0 : Int) ≤ 100
    decide
  all_goals
    intro h
    have h2 : "beginner" = "advanced" := h
    exact absurd h2 (by decide)

theorem inv_updateProgress (now : Int) (t a : String) (s : Int)
    (r : ProgressRecord) (h : RecordInv r) :
    RecordInv (updateProgress now t a s r) := by
  obtain ⟨h0, h100, hnd, hcne, hsne, htne⟩ := h
  have hAle : r.overall_score ≤
      (applyAction t a s { r with updated_at := now }).overall_score :=
    applyAction_score_le t a s { r with updated_at := now }
  obtain ⟨tail, htail⟩ :=
    applyAction_completed_extends t a s { r with updated_at := now }
  have hFcomp : (updateProgress now t a s r).completed_modules =
      r.completed_modules ++ tail := htail
  have hFscore : (updateProgress now t a s r).overall_score =
      min (applyAction t a s { r with updated_at := now }).overall_score 100 :=
    updateProgress_score now t a s r
  refine ⟨?_, ?_, ?_, ?_, ?_, ?_⟩
  · rw [hFscore]
    exact le_min (le_trans h0 hAle) (by decide)
  · rw [hFscore]
    exact min_le_right _ _
  · rw [updateProgress_current]
    exact applyAction_current_nodup t a s _ hnd
  · intro hadv
    rw [updateProgress_skill_crypto, newSkillCrypto_eq] at hadv
    rcases skillStep_eq_advanced _ _ _ _ _ _ _ hadv with hcond | hold
    · exact hcond
    · have hA' : (applyAction t a s
          { r with updated_at := now }).skill_crypto = "advanced" := hold
      have hr : r.skill_crypto = "advanced" :=
        ((applyAction_skills t a s { r with updated_at := now }).1).symm.trans
          hA'
      rcases hcne hr with h5 | h80
      · exact Or.inl (le_trans h5 (cryptoModules_mono r _ tail hFcomp))
      · refine Or.inr ?_
        rw [hFscore]
        exact le_min (le_trans h80 hAle) (by decide)
  · intro hadv
    rw [updateProgress_skill_stocks, newSkillStocks_eq] at hadv
    rcases skillStep_eq_advanced _ _ _ _ _ _ _ hadv with hcond | hold
    · exact hcond
    · have hA' : (applyAction t a s
          { r with updated_at := now }).skill_stocks = "advanced" := hold
      have hr : r.skill_stocks = "advanced" :=
        ((applyAction_skills t a s
          { r with updated_at := now }).2.1).symm.trans hA'
      rcases hsne hr with h5 | h80
      · exact Or.inl (le_trans h5 (stocksModules_mono r _ tail hFcomp))
      · refine Or.inr ?_
        rw [hFscore]
        exact le_min (le_trans h80 hAle) (by decide)
  · intro hadv
    rw [updateProgress_skill_trading, newSkillTrading_eq] at hadv
    rcases skillStep_eq_advanced _ _ _ _ _ _ _ hadv with hcond | hold
    · exact hcond
    · have hA' : (applyAction t a s
          { r with updated_at := now }).skill_trading = "advanced" := hold
      have hr : r.skill_trading = "advanced" :=
        ((applyAction_skills t a s
          { r with updated_at := now }).2.2).symm.trans hA'
      rcases htne hr with h4 | h75
      · exact Or.inl (le_trans h4 (tradingModules_mono r _ tail hFcomp))
      · refine Or.inr ?_
        rw [hFscore]
        exact le_min (le_trans h75 hAle) (by decide)

theorem inv_updateUserActivity (today now : Int) (r : ProgressRecord)
    (h : RecordInv r) : RecordInv (updateUserActivity today now r) := by
  obtain ⟨h0, h100, hnd, hcne, hsne, htne⟩ := h
  obtain ⟨hsc, hcm, hcu, _, _, hk1, hk2, hk3⟩ :=
    updateUserActivity_untouched today now r
  have hcm' : (updateUserActivity today now r).completed_modules =
      r.completed_modules ++ [] := by rw [hcm, List.append_nil]
  refine ⟨?_, ?_, ?_, ?_, ?_, ?_⟩
  · rw [hsc]; exact h0
  · rw [hsc]; exact h100
  · rw [hcu]; exact hnd
  · intro hadv
    rw [hk1] at hadv
    rcases hcne hadv with h5 | h80
    · exact Or.inl (le_trans h5 (cryptoModules_mono r _ [] hcm'))
    · exact Or.inr (by rw [hsc]; exact h80)
  · intro hadv
    rw [hk2] at hadv
    rcases hsne hadv with h5 | h80
    · exact Or.inl (le_trans h5 (stocksModules_mono r _ [] hcm'))
    · exact Or.inr (by rw [hsc]; exact h80)
  · intro hadv
    rw [hk3] at hadv
    rcases htne hadv with h4 | h75
    · exact Or.inl (le_trans h4 (tradingModules_mono r _ [] hcm'))
    · exact Or.inr (by rw [hsc]; exact h75)

theorem inv_applyEvent (r : ProgressRecord) (e : Event) (h : RecordInv r) :
    RecordInv (applyEvent r e) := by
  cases e with
  | progress now topic action score => exact inv_updateProgress now topic action score r h
  | activity today now => exact inv_updateUserActivity today now r h

/-- Any predicate preserved by every event in the list is preserved by the
whole run. -/
theorem runEvents_preserves {P : ProgressRecord → Prop} :
    ∀ (evs : List Event) (r : ProgressRecord),
      (∀ r' e, e ∈ evs → P r' → P (applyEvent r' e)) → P r →
      P (runEvents evs r) := by
  intro evs
  induction evs with
  | nil => intro r _ h0; exact h0
  | cons e rest ih =>
      intro r hstep h0
      have h1 : P (applyEvent r e) :=
        hstep r e (List.mem_cons_self e rest) h0
      have h2 := ih (applyEvent r e)
        (fun r' e' he' => hstep r' e' (List.mem_cons_of_mem e he')) h1
      exact h2

theorem inv_runEvents (evs : List Event) (r : ProgressRecord)
    (h : RecordInv r) : RecordInv (runEvents evs r) :=
  runEvents_preserves evs r (fun r' e _ hr => inv_applyEvent r' e hr) h

/-! ## Claim theorems -/

/-- C1: starting from the zero-value record, after any finite sequence of
events (in particular any sequence of `update_progress` events with any
topics, actions and scores; activity ticks are also covered a fortiori)
the `overall_score` field lies in `[0, 100]`.  Quantifying over all event
lists covers the state immediately after each event of a longer sequence,
including overflow attempts such as twenty `completed` events. -/
theorem overall_score_always_in_range (evs : List Event) (t0 uid : Int) :
    0 ≤ (runEvents evs (initProgress t0 uid)).overall_score ∧
    (runEvents evs (initProgress t0 uid)).overall_score ≤ 100 := by
  have h := inv_runEvents evs (initProgress t0 uid) (inv_init t0 uid)
  exact ⟨h.1, h.2.1⟩

theorem updateProgress_keeps_adv_crypto (now : Int) (topic action : String)
    (score : Int) (r : ProgressRecord) (hInv : RecordInv r)
    (hadv : r.skill_crypto = "advanced") :
    (updateProgress now topic action score r).skill_crypto = "advanced" := by
  have hAle :=
    applyAction_score_le topic action score { r with updated_at := now }
  obtain ⟨tail, htail⟩ :=
    applyAction_completed_extends topic action score
      { r with updated_at := now }
  have hFcomp : (updateProgress now topic action score r).completed_modules =
      r.completed_modules ++ tail := htail
  rw [updateProgress_skill_crypto, newSkillCrypto_eq]
  apply skillStep_advanced
  rcases hInv.2.2.2.1 hadv with h5 | h80
  · exact Or.inl (le_trans h5 (cryptoModules_mono r _ tail hFcomp))
  · exact Or.inr (le_min (le_trans h80 hAle) (by decide))

theorem updateProgress_keeps_adv_stocks (now : Int) (topic action : String)
    (score : Int) (r : ProgressRecord) (hInv : RecordInv r)
    (hadv : r.skill_stocks = "advanced") :
    (updateProgress now topic action score r).skill_stocks = "advanced" := by
  have hAle :=
    applyAction_score_le topic action score { r with updated_at := now }
  obtain ⟨tail, htail⟩ :=
    applyAction_completed_extends topic action score
      { r with updated_at := now }
  have hFcomp : (updateProgress now topic action score r).completed_modules =
      r.completed_modules ++ tail := htail
  rw [updateProgress_skill_stocks, newSkillStocks_eq]
  apply skillStep_advanced
  rcases hInv.2.2.2.2.1 hadv with h5 | h80
  · exact Or.inl (le_trans h5 (stocksModules_mono r _ tail hFcomp))
  · exact Or.inr (le_min (le_trans h80 hAle) (by decide))

theorem updateProgress_keeps_adv_trading (now : Int) (topic action : String)
    (score : Int) (r : ProgressRecord) (hInv : RecordInv r)
    (hadv : r.skill_trading = "advanced") :
    (updateProgress now topic action score r).skill_trading = "advanced" := by
  have hAle :=
    applyAction_score_le topic action score { r with updated_at := now }
  obtain ⟨tail, htail⟩ :=
    applyAction_completed_extends topic action score
      { r with updated_at := now }
  have hFcomp : (updateProgress now topic action score r).completed_modules =
      r.completed_modules ++ tail := htail
  rw [updateProgress_skill_trading, newSkillTrading_eq]
  apply skillStep_advanced
  rcases hInv.2.2.2.2.2 hadv with h4 | h75
  · exact Or.inl (le_trans h4 (tradingModules_mono r _ tail hFcomp))
  · exact Or.inr (le_min (le_trans h75 hAle) (by decide))

/-- C2 counterexample: the claim is quantified over every `ProgressRecord`,
but on the record with `skill_crypto = "advanced"`, `overall_score = 60`
and no completed modules (not reachable from the zero-value record),
`update_progress` rewrites the crypto skill back to `"intermediate"`:
the intermediate threshold (score ≥ 60) fires while the advanced one
(5 modules or score ≥ 80) does not, and `_update_skill_levels` has no
ratchet guarding the stored value. -/
theorem skill_downgrade_cex :
    ({ initProgress 0 1 with
        skill_crypto := "advanced"
        overall_score := 60 } : ProgressRecord).skill_crypto = "advanced" ∧
    (updateProgress 0 "budgeting" "viewed" 0
      { initProgress 0 1 with
        skill_crypto := "advanced"
        overall_score := 60 }).skill_crypto = "intermediate" :=
  ⟨rfl, by decide⟩

/-- C2 (amended): for every `ProgressRecord` reachable from the initial
zero-value record by `update_progress` / `update_user_activity` events,
a further `update_progress` call (any topic, any action, any score) never
changes a domain's skill level away from `"advanced"`; only
`reset_user_progress` (which replaces the record by the zero-value
record, whose skills are all `"beginner"`) may lower it. -/
theorem skill_never_downgraded_reachable (evs : List Event)
    (t0 uid now : Int) (topic action : String) (score : Int) :
    ((runEvents evs (initProgress t0 uid)).skill_crypto = "advanced" →
      (updateProgress now topic action score
        (runEvents evs (initProgress t0 uid))).skill_crypto = "advanced") ∧
    ((runEvents evs (initProgress t0 uid)).skill_stocks = "advanced" →
      (updateProgress now topic action score
        (runEvents evs (initProgress t0 uid))).skill_stocks = "advanced") ∧
    ((runEvents evs (initProgress t0 uid)).skill_trading = "advanced" →
      (updateProgress now topic action score
        (runEvents evs (initProgress t0 uid))).skill_trading = "advanced") := by
  have hInv := inv_runEvents evs (initProgress t0 uid) (inv_init t0 uid)
  exact ⟨fun h => updateProgress_keeps_adv_crypto now topic action score _ hInv h,
    fun h => updateProgress_keeps_adv_stocks now topic action score _ hInv h,
    fun h => updateProgress_keeps_adv_trading now topic action score _ hInv h⟩

/-- Witness for `skill_never_downgraded_reachable`: after eight completed
modules the score is clamped at 80+, all three domains are advanced, and a
further event keeps the crypto domain advanced. -/
theorem skill_never_downgraded_reachable_witness :
    (updateProgress 9 "t" "started" 0
      (runEvents [Event.progress 1 "m1" "completed" 0,
        Event.progress 2 "m2" "completed" 0, Event.progress 3 "m3" "completed" 0,
        Event.progress 4 "m4" "completed" 0, Event.progress 5 "m5" "completed" 0,
        Event.progress 6 "m6" "completed" 0, Event.progress 7 "m7" "completed" 0,
        Event.progress 8 "m8" "completed" 0] (initProgress 0 1))).skill_crypto =
      "advanced" :=
  (skill_never_downgraded_reachable
    [Event.progress 1 "m1" "completed" 0, Event.progress 2 "m2" "completed" 0,
      Event.progress 3 "m3" "completed" 0, Event.progress 4 "m4" "completed" 0,
      Event.progress 5 "m5" "completed" 0, Event.progress 6 "m6" "completed" 0,
      Event.progress 7 "m7" "completed" 0, Event.progress 8 "m8" "completed" 0]
    0 1 9 "t" "started" 0).1 (by decide)

/-- C3 counterexample: one `quiz_completed` event with `score = 2` on the
zero-value record yields `correct_answers = 2` but `total_questions = 1`;
the code adds the full score to `correct_answers` while incrementing
`total_questions` by exactly one. -/
theorem quiz_overcount_cex :
    ¬ ((updateProgress 0 "quiz" "quiz_completed" 2
        (initProgress 0 1)).correct_answers ≤
       (updateProgress 0 "quiz" "quiz_completed" 2
        (initProgress 0 1)).total_questions) := by decide

/-- The restriction the C3 amendment adds: a `quiz_completed` event may
award at most 1 (the code treats each quiz as a single question). -/
def quizScoreOk : Event → Prop
  | .progress _ _ a s => a = "quiz_completed" → s ≤ 1
  | .activity _ _ => True

theorem correct_le_total_step (r : ProgressRecord) (e : Event)
    (hok : quizScoreOk e) (hle : r.correct_answers ≤ r.total_questions) :
    (applyEvent r e).correct_answers ≤ (applyEvent r e).total_questions := by
  cases e with
  | progress now topic action score =>
      have h := applyAction_counters topic action score
        { r with updated_at := now } hle hok
      show (updateProgress now topic action score r).correct_answers ≤
        (updateProgress now topic action score r).total_questions
      rw [updateProgress_correct, updateProgress_total]
      exact h
  | activity today now =>
      obtain ⟨_, _, _, hca, hct, _, _, _⟩ :=
        updateUserActivity_untouched today now r
      show (updateUserActivity today now r).correct_answers ≤
        (updateUserActivity today now r).total_questions
      rw [hca, hct]
      exact hle

/-- C3 (amended): starting from the zero-value record,
`correct_answers ≤ total_questions` holds after every event sequence in
which each `quiz_completed` event carries `score ≤ 1` (the code increments
`total_questions` by exactly one per quiz, so only such scores are
consistent).  With an unrestricted score the claim is false, see
`quiz_overcount_cex`. -/
theorem correct_le_total_reachable (evs : List Event) (t0 uid : Int)
    (hok : ∀ e ∈ evs, quizScoreOk e) :
    (runEvents evs (initProgress t0 uid)).correct_answers ≤
      (runEvents evs (initProgress t0 uid)).total_questions :=
  runEvents_preserves evs (initProgress t0 uid)
    (fun r' e he hle => correct_le_total_step r' e (hok e he) hle) (le_refl 0)

/-- Witness for `correct_le_total_reachable` at one maximal-score quiz. -/
theorem correct_le_total_reachable_witness :
    (runEvents [Event.progress 0 "q" "quiz_completed" 1]
      (initProgress 0 1)).correct_answers ≤
    (runEvents [Event.progress 0 "q" "quiz_completed" 1]
      (initProgress 0 1)).total_questions :=
  correct_le_total_reachable [Event.progress 0 "q" "quiz_completed" 1] 0 1
    (by
      intro e he
      simp only [List.mem_singleton] at he
      subst he
      intro _
      decide)

theorem updateProgress_completed_spec (now : Int) (topic : String) (s : Int)
    (r : ProgressRecord) (hnd : r.current_modules.Nodup) :
    topic ∈ (updateProgress now topic "completed" s r).completed_modules ∧
    topic ∉ (updateProgress now topic "completed" s r).current_modules := by
  have hAA : applyAction topic "completed" s { r with updated_at := now } =
      applyCompleted topic { r with updated_at := now } := by
    simp [applyAction]
  constructor
  · rw [updateProgress_completed, hAA, applyCompleted_eq]
    show topic ∈ (if topic ∈ r.completed_modules then r.completed_modules
      else r.completed_modules ++ [topic])
    split
    · assumption
    · exact List.mem_append_right _ (List.mem_singleton_self topic)
  · rw [updateProgress_current, hAA, applyCompleted_eq]
    show topic ∉ (if topic ∈ r.current_modules then
      r.current_modules.erase topic else r.current_modules)
    split
    · exact List.Nodup.not_mem_erase hnd
    · assumption

/-- The event list of `n` `started` calls on one topic, one per entry of
`stamps` (carrying that call's timestamp and ignored score argument). -/
def startedEvents (topic : String) (stamps : List (Int × Int)) : List Event :=
  stamps.map fun p => Event.progress p.1 topic "started" p.2

/-- C7: starting from the zero-value record, after any number of
`started` events on a topic followed by one `completed` event on that
same topic, the topic is in `completed_modules` and not in
`current_modules`. -/
theorem started_then_completed (topic : String) (stamps : List (Int × Int))
    (t0 uid now score : Int) :
    topic ∈ (updateProgress now topic "completed" score
      (runEvents (startedEvents topic stamps)
        (initProgress t0 uid))).completed_modules ∧
    topic ∉ (updateProgress now topic "completed" score
      (runEvents (startedEvents topic stamps)
        (initProgress t0 uid))).current_modules := by
  have hInv := inv_runEvents (startedEvents topic stamps)
    (initProgress t0 uid) (inv_init t0 uid)
  exact updateProgress_completed_spec now topic score _ hInv.2.2.1

theorem updateUserActivity_last (today now : Int) (r : ProgressRecord) :
    (updateUserActivity today now r).last_activity = some today := rfl

theorem updateUserActivity_eq (today now : Int) (r : ProgressRecord) :
    updateUserActivity today now r =
      if r.last_activity = some today then
        { r with last_activity := some today, updated_at := now }
      else
        { r with
            days_active := r.days_active + 1
            learning_streak :=
              match r.last_activity with
              | some prior =>
                  if today - prior = 1 then r.learning_streak + 1 else 1
              | none => 1
            last_activity := some today
            updated_at := now } := by
  unfold updateUserActivity
  by_cases h : r.last_activity = some today
  · rw [if_neg (not_not_intro h), if_pos h]
  · rw [if_pos h, if_neg h]
    cases hl : r.last_activity with
    | none => simp [hl]
    | some prior =>
        by_cases hd : today - prior = 1
        · simp [hl, hd]
        · by_cases hgt : 1 < today - prior
          · simp [hl, hd, hgt]
          · simp [hl, hd, hgt]

/-- C4: `update_user_activity` — a second call on the same calendar day
changes neither `days_active` nor `learning_streak`; a call on the day
right after the stored `last_activity` increments both the streak and
`days_active`; a call after a gap of two or more days resets the streak
to 1 while still incrementing `days_active`; and the first-ever call sets
the streak to 1. -/
theorem tick_activity_cases (today now now2 : Int) (r : ProgressRecord) :
    ((updateUserActivity today now2
        (updateUserActivity today now r)).days_active =
        (updateUserActivity today now r).days_active ∧
      (updateUserActivity today now2
        (updateUserActivity today now r)).learning_streak =
        (updateUserActivity today now r).learning_streak) ∧
    (r.last_activity = some today →
      (updateUserActivity today now r).days_active = r.days_active ∧
      (updateUserActivity today now r).learning_streak =
        r.learning_streak) ∧
    (r.last_activity = some (today - 1) →
      (updateUserActivity today now r).days_active = r.days_active + 1 ∧
      (updateUserActivity today now r).learning_streak =
        r.learning_streak + 1) ∧
    (∀ prior, r.last_activity = some prior → 2 ≤ today - prior →
      (updateUserActivity today now r).days_active = r.days_active + 1 ∧
      (updateUserActivity today now r).learning_streak = 1) ∧
    (r.last_activity = none →
      (updateUserActivity today now r).days_active = r.days_active + 1 ∧
      (updateUserActivity today now r).learning_streak = 1) := by
  refine ⟨?_, ?_, ?_, ?_, ?_⟩
  · rw [updateUserActivity_eq today now2 (updateUserActivity today now r),
      if_pos (updateUserActivity_last today now r)]
    exact ⟨rfl, rfl⟩
  · intro h
    rw [updateUserActivity_eq, if_pos h]
    exact ⟨rfl, rfl⟩
  · intro h
    have hne : ¬ r.last_activity = some today := by
      rw [h]
      intro hc
      injection hc with hc2
      omega
    rw [updateUserActivity_eq, if_neg hne]
    refine ⟨rfl, ?_⟩
    have h1 : today - (today - 1) = 1 := by omega
    simp [h, h1]
  · intro prior h hge
    have hne : ¬ r.last_activity = some today := by
      rw [h]
      intro hc
      injection hc with hc2
      omega
    rw [updateUserActivity_eq, if_neg hne]
    refine ⟨rfl, ?_⟩
    have h1 : ¬ (today - prior = 1) := by omega
    simp [h, h1]
  · intro h
    have hne : ¬ r.last_activity = some today := by
      simp [h]
    rw [updateUserActivity_eq, if_neg hne]
    refine ⟨rfl, ?_⟩
    simp [h]

/-- Witness for `tick_activity_cases`: with `last_activity` on day 5, a
call on day 6 increments the streak, and a call on day 8 resets it. -/
theorem tick_activity_cases_witness :
    (updateUserActivity 6 100
      ({ initProgress 0 1 with
          last_activity := some 5
          days_active := 3
          learning_streak := 2 } : ProgressRecord)).days_active = 4 ∧
    (updateUserActivity 6 100
      ({ initProgress 0 1 with
          last_activity := some 5
          days_active := 3
          learning_streak := 2 } : ProgressRecord)).learning_streak = 3 :=
  (tick_activity_cases 6 100 0
    { initProgress 0 1 with
        last_activity := some 5
        days_active := 3
        learning_streak := 2 }).2.2.1 (by decide)

theorem storeShape_length (l : List Turn) (x : Turn) (cap : Nat) :
    (if cap < (l ++ [x]).length then
      (l ++ [x]).drop ((l ++ [x]).length - cap) else l ++ [x]).length ≤
      cap := by
  split
  · rename_i hgt
    rw [List.length_drop]
    omega
  · rename_i hle
    omega

theorem storeShape_at_cap (l : List Turn) (x : Turn) (cap : Nat)
    (hpos : 0 < cap) (h : l.length = cap) :
    (if cap < (l ++ [x]).length then
      (l ++ [x]).drop ((l ++ [x]).length - cap) else l ++ [x]) =
      l.drop 1 ++ [x] := by
  have hlen : (l ++ [x]).length = cap + 1 := by simp [h]
  rw [if_pos (by omega), hlen, show cap + 1 - cap = 1 from by omega,
    List.drop_append_of_le_length (by omega)]

theorem storeShape_under_cap (l : List Turn) (x : Turn) (cap : Nat)
    (h : l.length < cap) :
    (if cap < (l ++ [x]).length then
      (l ++ [x]).drop ((l ++ [x]).length - cap) else l ++ [x]) = l ++ [x] := by
  rw [if_neg (by simp; omega)]

/-- C5: per-user ledgers are capped at 50 and per-group ledgers at 100 by
the respective store operations; at the cap the oldest entry is dropped
(FIFO) and the rest keep their order; under the cap the append is plain. -/
theorem ledger_caps (now : Int) (t : Turn) (ul gl : List Turn) :
    (storeConversation now ul t).length ≤ 50 ∧
    (ul.length = 50 →
      storeConversation now ul t = ul.drop 1 ++ [ensureTimestamp now t]) ∧
    (ul.length < 50 →
      storeConversation now ul t = ul ++ [ensureTimestamp now t]) ∧
    (storeGroupConversation now gl t).length ≤ 100 ∧
    (gl.length = 100 →
      storeGroupConversation now gl t = gl.drop 1 ++ [ensureTimestamp now t]) ∧
    (gl.length < 100 →
      storeGroupConversation now gl t = gl ++ [ensureTimestamp now t]) :=
  ⟨storeShape_length ul (ensureTimestamp now t) 50,
    fun h => storeShape_at_cap ul (ensureTimestamp now t) 50 (by omega) h,
    fun h => storeShape_under_cap ul (ensureTimestamp now t) 50 h,
    storeShape_length gl (ensureTimestamp now t) 100,
    fun h => storeShape_at_cap gl (ensureTimestamp now t) 100 (by omega) h,
    fun h => storeShape_under_cap gl (ensureTimestamp now t) 100 h⟩

/-- A sample stored turn used by concrete witnesses. -/
def sampleTurn (i : Int) : Turn :=
  ⟨some i, "hello", "user", 1, 2, "private", none⟩

/-- A turn whose timestamp is missing or unparsable. -/
def unstampedTurn : Turn :=
  ⟨none, "old", "user", 1, 2, "private", none⟩

/-- Witness for `ledger_caps`: appending the 51st turn drops the oldest. -/
theorem ledger_caps_witness :
    storeConversation 0 (List.replicate 50 (sampleTurn 3)) (sampleTurn 4) =
      (List.replicate 50 (sampleTurn 3)).drop 1 ++
        [ensureTimestamp 0 (sampleTurn 4)] :=
  (ledger_caps 0 (sampleTurn 4) (List.replicate 50 (sampleTurn 3)) []).2.1
    (by simp)

/-- C6: in a `group`/`supergroup` chat the assembled context is the whole
group ledger followed by the last five per-user entries (fewer when the
user ledger is shorter), in that order; the user-only tail never exceeds
five entries and is a suffix of the user ledger (no re-sorting); for any
other chat kind the context is the per-user ledger verbatim. -/
theorem build_context_spec (kind : String) (G U : List Turn) :
    ((kind = "group" ∨ kind = "supergroup") →
      buildContext kind G U = G ++ (U.reverse.take 5).reverse ∧
      ((U.reverse.take 5).reverse).length ≤ 5 ∧
      List.IsSuffix ((U.reverse.take 5).reverse) U) ∧
    (kind ≠ "group" → kind ≠ "supergroup" → buildContext kind G U = U) := by
  have hlast : U.drop (U.length - 5) = (U.reverse.take 5).reverse := by
    rw [show U.drop (U.length - 5) = U.rtake 5 from rfl,
      List.rtake_eq_reverse_take_reverse]
  constructor
  · intro hk
    refine ⟨?_, by simp [List.length_take], ?_⟩
    · rw [buildContext, if_pos hk, hlast]
    · rw [← hlast]
      exact List.drop_suffix _ _
  · intro h1 h2
    rw [buildContext, if_neg (by simp [h1, h2])]

/-- Witness for `build_context_spec` in a group chat. -/
theorem build_context_spec_witness :
    buildContext "group" [sampleTurn 0]
      [sampleTurn 1, sampleTurn 2, sampleTurn 3, sampleTurn 4, sampleTurn 5,
        sampleTurn 6] =
      [sampleTurn 0] ++
        (([sampleTurn 1, sampleTurn 2, sampleTurn 3, sampleTurn 4,
          sampleTurn 5, sampleTurn 6].reverse.take 5).reverse) :=
  ((build_context_spec "group" [sampleTurn 0]
    [sampleTurn 1, sampleTurn 2, sampleTurn 3, sampleTurn 4, sampleTurn 5,
      sampleTurn 6]).1 (Or.inl rfl)).1

/-- C8: `cleanup_old_data` keeps exactly the entries whose timestamp
parses and is strictly newer than the cutoff, always keeps entries with a
missing/unparsable timestamp (fail-open), preserves order (the result is
a sublist), and rewrites every per-user ledger this way. -/
theorem cleanup_retention (days_to_keep now : Int) (ledger : List Turn) :
    (∀ c, c ∈ cleanupLedger (now - days_to_keep * 24 * 60 * 60) ledger ↔
      c ∈ ledger ∧ (c.timestamp = none ∨
        ∃ ts, c.timestamp = some ts ∧
          now - days_to_keep * 24 * 60 * 60 < ts)) ∧
    List.Sublist (cleanupLedger (now - days_to_keep * 24 * 60 * 60) ledger)
      ledger ∧
    (∀ s : DataStore, ∀ uid : Int,
      (cleanupOldData days_to_keep now s).memories uid =
        cleanupLedger (now - days_to_keep * 24 * 60 * 60) (s.memories uid)) := by
  refine ⟨?_, List.filter_sublist _, fun s uid => rfl⟩
  intro c
  rw [cleanupLedger, List.mem_filter]
  constructor
  · rintro ⟨hm, hk⟩
    refine ⟨hm, ?_⟩
    unfold keepConversation at hk
    cases hts : c.timestamp with
    | none => exact Or.inl rfl
    | some ts =>
        rw [hts] at hk
        simp only [decide_eq_true_eq] at hk
        exact Or.inr ⟨ts, rfl, hk⟩
  · rintro ⟨hm, hcase⟩
    refine ⟨hm, ?_⟩
    unfold keepConversation
    rcases hcase with hnone | ⟨ts, hts, hlt⟩
    · rw [hnone]
    · rw [hts]
      simp only [decide_eq_true_eq]
      exact hlt

/-- Witness for `cleanup_retention`: an unstamped turn survives a purge. -/
theorem cleanup_retention_witness :
    unstampedTurn ∈ cleanupLedger (0 - 30 * 24 * 60 * 60) [unstampedTurn] :=
  ((cleanup_retention 30 0 [unstampedTurn]).1 unstampedTurn).mpr
    ⟨List.mem_singleton_self _, Or.inl rfl⟩

/-- C9: `reset_user_progress` overwrites the stored progress record with
the fresh zero-value/beginner record and leaves the per-user conversation
memories, the per-group memories and the user-directory records
untouched. -/
theorem reset_replaces_record_and_preserves_memories (now uid : Int)
    (s : DataStore) :
    (resetUserProgress now uid s).progress uid =
      some (initProgress now uid) ∧
    (resetUserProgress now uid s).memories = s.memories ∧
    (resetUserProgress now uid s).groupMemories = s.groupMemories ∧
    (resetUserProgress now uid s).users = s.users ∧
    (initProgress now uid).overall_score = 0 ∧
    (initProgress now uid).achievements = [] ∧
    (initProgress now uid).completed_modules = [] ∧
    (initProgress now uid).current_modules = [] ∧
    (initProgress now uid).skill_crypto = "beginner" ∧
    (initProgress now uid).skill_stocks = "beginner" ∧
    (initProgress now uid).skill_trading = "beginner" := by
  refine ⟨?_, rfl, rfl, rfl, rfl, rfl, rfl, rfl, rfl, rfl, rfl⟩
  show (if uid = uid then some (initProgress now uid) else s.progress uid) =
    some (initProgress now uid)
  rw [if_pos rfl]

theorem updateProgress_quizzes (now : Int) (t a : String) (s : Int)
    (r : ProgressRecord) :
    (updateProgress now t a s r).quizzes_completed =
      (applyAction t a s { r with updated_at := now }).quizzes_completed := rfl

theorem updateProgress_recent (now : Int) (t a : String) (s : Int)
    (r : ProgressRecord) :
    (updateProgress now t a s r).recent_topics =
      newRecentTopics t
        (applyAction t a s { r with updated_at := now }).recent_topics := rfl

theorem updateProgress_updated (now : Int) (t a : String) (s : Int)
    (r : ProgressRecord) :
    (updateProgress now t a s r).updated_at =
      (applyAction t a s { r with updated_at := now }).updated_at := rfl

/-- C10: an action outside `started`/`completed`/`quiz_completed` falls
through the dispatch without an error: the score (already ≤ 100), module
lists and quiz counters are unchanged; the topic is still appended to
`recent_topics` when absent (capped at the last 10); `updated_at` is
refreshed; achievements and skill levels are re-evaluated (the update is
exactly the pipeline with the action dispatch skipped); and the record is
persisted back to the store. -/
theorem unknown_action_behaviour (now uid : Int) (topic action : String)
    (score : Int) (r : ProgressRecord) (s : DataStore)
    (h1 : action ≠ "started") (h2 : action ≠ "completed")
    (h3 : action ≠ "quiz_completed") (hsc : r.overall_score ≤ 100)
    (hstored : s.progress uid = some r) :
    (updateProgress now topic action score r).overall_score =
      r.overall_score ∧
    (updateProgress now topic action score r).completed_modules =
      r.completed_modules ∧
    (updateProgress now topic action score r).current_modules =
      r.current_modules ∧
    (updateProgress now topic action score r).quizzes_completed =
      r.quizzes_completed ∧
    (updateProgress now topic action score r).correct_answers =
      r.correct_answers ∧
    (updateProgress now topic action score r).total_questions =
      r.total_questions ∧
    (updateProgress now topic action score r).recent_topics =
      newRecentTopics topic r.recent_topics ∧
    (updateProgress now topic action score r).updated_at = now ∧
    updateProgress now topic action score r =
      updateSkillLevels (checkAchievements (clampScore
        (updateRecentTopics topic { r with updated_at := now }))) ∧
    (updateProgressOp now uid topic action score s).progress uid =
      some (updateProgress now topic action score r) := by
  have hAA := applyAction_eq_of_unknown topic action score
    { r with updated_at := now } h1 h2 h3
  have hdec : updateProgress now topic action score r =
      updateSkillLevels (checkAchievements (clampScore
        (updateRecentTopics topic { r with updated_at := now }))) := by
    rw [updateProgress_decompose, hAA]
  refine ⟨?_, ?_, ?_, ?_, ?_, ?_, ?_, ?_, hdec, ?_⟩
  · rw [updateProgress_score, hAA]
    show min r.overall_score 100 = r.overall_score
    exact min_eq_left hsc
  · rw [updateProgress_completed, hAA]
  · rw [updateProgress_current, hAA]
  · rw [updateProgress_quizzes, hAA]
  · rw [updateProgress_correct, hAA]
  · rw [updateProgress_total, hAA]
  · rw [updateProgress_recent, hAA]
  · rw [updateProgress_updated, hAA]
  · show (updateProgressOp now uid topic action score s).progress uid =
      some (updateProgress now topic action score r)
    unfold updateProgressOp getUserProgress
    rw [hstored]
    show (if uid = uid then
      some (updateProgress now topic action score r) else s.progress uid) =
      some (updateProgress now topic action score r)
    rw [if_pos rfl]

/-- Witness for `unknown_action_behaviour` on the action `viewed`. -/
theorem unknown_action_behaviour_witness :
    (updateProgress 7 "defi" "viewed" 3 (initProgress 0 1)).overall_score =
      (initProgress 0 1).overall_score :=
  (unknown_action_behaviour 7 1 "defi" "viewed" 3 (initProgress 0 1)
    ⟨fun _ => none, fun _ => [], fun _ => [],
      fun k => if k = 1 then some (initProgress 0 1) else none⟩
    (by decide) (by decide) (by decide) (by decide) (by rfl)).1
